import Mathlib

/-!
Verification of the sopa patch-consolidation engine
(`sopa/segmentation/shapes.py` and `sopa/segmentation/methods/_baysor.py`)
against its natural-language specification.

Cell geometries handled by `solve_conflicts` are modelled as finite pixel
sets (`Region := Finset ℕ`): shapely's `.area` becomes the cardinality,
`.intersection`/`.union` become set intersection/union, and the STRtree
`intersects` predicate becomes nonempty intersection.  This abstraction is
faithful to every operation `solve_conflicts` performs on geometries.
-/

deriving instance DecidableEq for Except

namespace Sopa

/-- A cell geometry as used by `solve_conflicts`, abstracted to its set of
pixels. -/
abbrev Region := Finset ℕ

/-- shapely `.area` of a cell, modelled as the number of pixels.  Cast to `ℚ`
because the code compares areas against `threshold * min(area, area)` with a
fractional threshold. -/
def areaR (c : Region) : ℚ := c.card

/-- `_ensure_polygon` as applied to the union of two cells inside
`solve_conflicts` (`shapes.py` line 52).  In the pixel-set model the union of
two regions is already a single region, and repairing a valid region returns
it unchanged, so the canonicalization is the identity; the loop only tests the
result for emptiness (`assert not cell.is_empty`). -/
def ensure_polygonR (c : Region) : Region := c

/-- The loop state of `solve_conflicts` (`shapes.py` lines 31-56): the growing
Python list `cells` and the numpy array `resolved_indices` (one entry per
original cell, pointing at that cell's current representative in `cells`). -/
structure ResolveState where
  cells : List Region
  resolved : List ℕ
  deriving DecidableEq

/-- The body of the `for i1, i2 in conflicts` loop of `solve_conflicts`
(`shapes.py` lines 45-56): resolve both pair members through
`resolved_indices`, compare the intersection area with
`threshold * min(area1, area2)`, and on a merge append
`_ensure_polygon(cell1.union(cell2))` (asserting it nonempty) and repoint
every index currently mapped to either representative to the new cell. -/
def conflictStep (threshold : ℚ) (st : ResolveState) (pr : ℕ × ℕ) :
    Except String ResolveState :=
  let ri := st.resolved.getD pr.1 0
  let rj := st.resolved.getD pr.2 0
  let cell1 := st.cells.getD ri ∅
  let cell2 := st.cells.getD rj ∅
  if areaR (cell1 ∩ cell2) ≥ threshold * min (areaR cell1) (areaR cell2) then
    let merged := ensure_polygonR (cell1 ∪ cell2)
    if merged = ∅ then Except.error "Merged cell is empty"
    else Except.ok
      ⟨st.cells ++ [merged],
       st.resolved.map (fun r => if r = ri ∨ r = rj then st.cells.length else r)⟩
  else Except.ok st

/-- The whole conflict loop, folding `conflictStep` over the candidate pairs;
the Python `assert` aborts the loop, modelled by error propagation. -/
def resolveLoop (threshold : ℚ) : List (ℕ × ℕ) → ResolveState → Except String ResolveState
  | [], st => Except.ok st
  | pr :: rest, st =>
    match conflictStep threshold st pr with
    | Except.error e => Except.error e
    | Except.ok st' => resolveLoop threshold rest st'

/-- shapely's `intersects` predicate in the pixel-set model. -/
def intersectsR (a b : Region) : Prop := (a ∩ b).Nonempty

instance (a b : Region) : Decidable (intersectsR a b) := by
  unfold intersectsR; infer_instance

/-- The pair filter of `shapes.py` lines 40-43:
`patch_indices[i1] != patch_indices[i2]` when patch indices are given, else
`i1 != i2`. -/
def keptPair (patchIdx : Option (List ℕ)) (i j : ℕ) : Prop :=
  match patchIdx with
  | some ps => ps.getD i 0 ≠ ps.getD j 0
  | none => i ≠ j

instance (patchIdx : Option (List ℕ)) (i j : ℕ) : Decidable (keptPair patchIdx i j) := by
  unfold keptPair; cases patchIdx <;> infer_instance

/-- The candidate conflict pairs (`shapes.py` lines 37-43):
`tree.query(cells, predicate="intersects")` gives every ordered pair `(i, j)`
of intersecting cells (both orientations); pairs are then kept when
`patch_indices[i] != patch_indices[j]` (or `i != j` when no patch indices are
given).  The STRtree order is unspecified; we enumerate lexicographically and
claims about order quantify over permutations. -/
def conflictPairs (cells : List Region) (patchIdx : Option (List ℕ)) : List (ℕ × ℕ) :=
  (List.range cells.length).flatMap fun i =>
    (List.range cells.length).filterMap fun j =>
      if intersectsR (cells.getD i ∅) (cells.getD j ∅) ∧ keptPair patchIdx i j
      then some (i, j) else none

/-- Insertion of a value into a sorted list (ascending). -/
def insertSorted (x : ℕ) : List ℕ → List ℕ
  | [] => [x]
  | y :: ys => if x ≤ y then x :: y :: ys else y :: insertSorted x ys

/-- `np.unique`: the distinct values of a list, sorted ascending, implemented
as insertion sort over `dedup` so that it evaluates by kernel reduction. -/
def uniqueSorted (l : List ℕ) : List ℕ := l.dedup.foldr insertSorted []

/-- The pair returned by `solve_conflicts` with `return_indices=True`:
`unique_cells` (a GeoDataFrame) and the index array
`np.where(unique_indices < n_cells, unique_indices, -1)`. -/
structure Resolved where
  unique_cells : List Region
  indices : List ℤ
  deriving DecidableEq

/-- `solve_conflicts` with the conflict-pair list made explicit (the STRtree
query order is an implementation detail): the `assert n_cells > 0`
precondition, the merge loop, and the `np.unique`-based extraction of the
final cells and of the `return_indices` array (`shapes.py` lines 31-64). -/
def solveWithPairs (cells : List Region) (threshold : ℚ) (pairs : List (ℕ × ℕ)) :
    Except String Resolved :=
  if cells.length = 0 then Except.error "No cells was segmented, cannot continue"
  else
    match resolveLoop threshold pairs ⟨cells, List.range cells.length⟩ with
    | Except.error e => Except.error e
    | Except.ok st =>
      let u := uniqueSorted st.resolved
      Except.ok
        ⟨u.map (fun i => st.cells.getD i ∅),
         u.map (fun i => if i < cells.length then (i : ℤ) else -1)⟩

/-- `solve_conflicts(cells, threshold, patch_indices, return_indices=True)`
(`shapes.py` lines 14-64). -/
def solve_conflicts (cells : List Region) (threshold : ℚ)
    (patchIdx : Option (List ℕ)) : Except String Resolved :=
  solveWithPairs cells threshold (conflictPairs cells patchIdx)

lemma conflictStep_cells_extends {θ : ℚ} {st st' : ResolveState} {pr : ℕ × ℕ}
    (h : conflictStep θ st pr = Except.ok st') :
    ∃ t, st'.cells = st.cells ++ t := by
  unfold conflictStep at h
  dsimp only at h
  split at h
  · split at h
    · exact absurd h (by simp)
    · exact ⟨_, (congrArg ResolveState.cells (Except.ok.inj h)).symm⟩
  · exact ⟨[], by simp [← Except.ok.inj h]⟩

lemma resolveLoop_cells_extends {θ : ℚ} : ∀ {pairs : List (ℕ × ℕ)} {st st' : ResolveState},
    resolveLoop θ pairs st = Except.ok st' → ∃ t, st'.cells = st.cells ++ t := by
  intro pairs
  induction pairs with
  | nil =>
    intro st st' h
    obtain rfl : st = st' := by simpa [resolveLoop] using h
    exact ⟨[], by simp⟩
  | cons pr rest ih =>
    intro st st' h
    unfold resolveLoop at h
    split at h
    · exact absurd h (by simp)
    · rename_i st₁ hstep
      obtain ⟨t₁, ht₁⟩ := conflictStep_cells_extends hstep
      obtain ⟨t₂, ht₂⟩ := ih h
      exact ⟨t₁ ++ t₂, by rw [ht₂, ht₁, List.append_assoc]⟩

/-- C1 (amended).  When `solve_conflicts` succeeds with `return_indices=True`,
the returned index array has one entry per cell of the *final* collection
(not per original cell): entry `k` is either the original index of final cell
`k` — in which case that final cell is that original cell, unchanged — or `-1`
when final cell `k` is a newly created merged cell. -/
theorem solve_conflicts_index_map_final_semantics (cells : List Region) (θ : ℚ)
    (pt : Option (List ℕ)) (out : Resolved)
    (h : solve_conflicts cells θ pt = Except.ok out) :
    out.indices.length = out.unique_cells.length ∧
    ∀ (k : ℕ) (hk : k < out.indices.length) (hk' : k < out.unique_cells.length),
      out.indices[k] = -1 ∨
      ∃ i : ℕ, i < cells.length ∧ out.indices[k] = (i : ℤ) ∧
        out.unique_cells[k] = cells.getD i ∅ := by
  unfold solve_conflicts solveWithPairs at h
  split at h
  · exact absurd h (by simp)
  · split at h
    · exact absurd h (by simp)
    · rename_i st hloop
      obtain ⟨t, ht⟩ := resolveLoop_cells_extends hloop
      dsimp only at ht
      obtain rfl : out = _ := (Except.ok.inj h).symm
      constructor
      · simp
      · intro k hk hk'
        simp only [List.length_map] at hk hk'
        simp only [List.getElem_map]
        by_cases hlt : (uniqueSorted st.resolved)[k] < cells.length
        · refine Or.inr ⟨(uniqueSorted st.resolved)[k], hlt, by simp [hlt], ?_⟩
          exact (congrArg (fun l => List.getD l ((uniqueSorted st.resolved)[k]) ∅) ht).trans
            (List.getD_append _ _ _ _ hlt)
        · exact Or.inl (by simp [hlt])

/-- C1 counterexample.  For two squares overlapping 60% of the smaller one's
area (pixel rows `{0..9}` and `{4..13}`, each of area 10, intersection 6) with
`threshold = 0.5`, `solve_conflicts` returns one merged cell and the index
array `[-1]` of length 1: not the array `[-1, -1]` of length 2 (the original
collection size) stated by the claim. -/
theorem solve_conflicts_index_map_counterexample :
    solve_conflicts [Finset.range 10, Finset.Ico 4 14] (1/2) none
      = Except.ok ⟨[Finset.Ico 0 14], [-1]⟩ ∧
    ([(-1 : ℤ)] ≠ [-1, -1] ∧
      [(-1 : ℤ)].length ≠ [Finset.range 10, Finset.Ico 4 14].length) := by
  with_unfolding_all decide

/-- C1 witness: the amended theorem applied to two non-overlapping squares
with patch tags `{0, 1}`, where `solve_conflicts` keeps both cells and
returns the index map `[0, 1]`. -/
theorem solve_conflicts_index_map_witness :
    (⟨[Finset.range 2, Finset.Ico 10 12], [0, 1]⟩ : Resolved).indices.length
      = (⟨[Finset.range 2, Finset.Ico 10 12], [0, 1]⟩ : Resolved).unique_cells.length :=
  (solve_conflicts_index_map_final_semantics [Finset.range 2, Finset.Ico 10 12] (1/2)
    (some [0, 1]) ⟨[Finset.range 2, Finset.Ico 10 12], [0, 1]⟩
    (by with_unfolding_all decide)).1

/-- Invariant of the conflict loop on an input of `n` cells: the union array
keeps one entry per original cell, every entry points inside the growing cell
list, and every cell of the list is nonempty. -/
def StateInv (n : ℕ) (st : ResolveState) : Prop :=
  st.resolved.length = n ∧ (∀ r ∈ st.resolved, r < st.cells.length) ∧
    ∀ c ∈ st.cells, c.Nonempty

lemma uniqueSorted_length (l : List ℕ) : (uniqueSorted l).length = l.toFinset.card := by
  have hstep : ∀ (x : ℕ) (m : List ℕ), (insertSorted x m).length = m.length + 1 := by
    intro x m
    induction m with
    | nil => rfl
    | cons y ys ih =>
      by_cases hxy : x ≤ y
      · simp [insertSorted, hxy]
      · simp [insertSorted, hxy, ih]
  have hfold : ∀ m : List ℕ, (m.foldr insertSorted []).length = m.length := by
    intro m
    induction m with
    | nil => rfl
    | cons y ys ih => simp [List.foldr, hstep, ih]
  have hcard : l.toFinset.card = l.dedup.length := by
    rw [Finset.card, List.toFinset_val]
    exact Multiset.coe_card _
  rw [uniqueSorted, hfold, hcard]

lemma conflictStep_ok_of_inv {θ : ℚ} {n : ℕ} {st : ResolveState} (pr : ℕ × ℕ)
    (hinv : StateInv n st) (h1 : pr.1 < n) (h2 : pr.2 < n) :
    ∃ st', conflictStep θ st pr = Except.ok st' ∧ StateInv n st' ∧
      st'.resolved.toFinset.card ≤ st.resolved.toFinset.card := by
  obtain ⟨hlen, hlt, hne⟩ := hinv
  have hri : st.resolved.getD pr.1 0 ∈ st.resolved := by
    rw [List.getD_eq_getElem _ _ (hlen ▸ h1)]
    exact List.getElem_mem _
  have hcell1 : st.cells.getD (st.resolved.getD pr.1 0) ∅ ∈ st.cells := by
    rw [List.getD_eq_getElem _ _ (hlt _ hri)]
    exact List.getElem_mem _
  unfold conflictStep
  dsimp only
  split
  · rename_i hcond
    have hmerged : ¬ ensure_polygonR
        (st.cells.getD (st.resolved.getD pr.1 0) ∅ ∪
          st.cells.getD (st.resolved.getD pr.2 0) ∅) = ∅ := by
      intro hempty
      rcases hne _ hcell1 with ⟨x, hx⟩
      have : x ∈ (∅ : Region) := by
        rw [← hempty]
        exact Finset.mem_union_left _ hx
      simp at this
    rw [if_neg hmerged]
    refine ⟨_, rfl, ⟨by simpa using hlen, ?_, ?_⟩, ?_⟩
    · intro r hr
      simp only [List.mem_map] at hr
      obtain ⟨r₀, hr₀, rfl⟩ := hr
      simp only [List.length_append, List.length_singleton]
      split
      · exact Nat.lt_succ_self _
      · exact Nat.lt_succ_of_lt (hlt _ hr₀)
    · intro c hc
      rcases List.mem_append.mp hc with hc | hc
      · exact hne _ hc
      · rcases hne _ hcell1 with ⟨x, hx⟩
        simp only [List.mem_singleton] at hc
        exact ⟨x, hc ▸ Finset.mem_union_left _ hx⟩
    · dsimp only
      have himg : (st.resolved.map fun r =>
          if r = st.resolved.getD pr.1 0 ∨ r = st.resolved.getD pr.2 0 then st.cells.length
          else r).toFinset
          = st.resolved.toFinset.image fun r =>
              if r = st.resolved.getD pr.1 0 ∨ r = st.resolved.getD pr.2 0 then st.cells.length
              else r := by
        apply Finset.ext
        intro x
        simp [List.mem_toFinset, List.mem_map, Finset.mem_image]
      rw [himg]
      exact Finset.card_image_le
  · exact ⟨st, rfl, ⟨hlen, hlt, hne⟩, le_refl _⟩

lemma resolveLoop_ok_of_inv {θ : ℚ} {n : ℕ} :
    ∀ {pairs : List (ℕ × ℕ)} {st : ResolveState}, StateInv n st →
    (∀ p ∈ pairs, p.1 < n ∧ p.2 < n) →
    ∃ st', resolveLoop θ pairs st = Except.ok st' ∧ StateInv n st' ∧
      st'.resolved.toFinset.card ≤ st.resolved.toFinset.card := by
  intro pairs
  induction pairs with
  | nil => exact fun hinv _ => ⟨_, rfl, hinv, le_refl _⟩
  | cons pr rest ih =>
    intro st hinv hmem
    obtain ⟨st₁, hstep, hinv₁, hcard₁⟩ :=
      conflictStep_ok_of_inv (θ := θ) pr hinv (hmem pr (by simp)).1 (hmem pr (by simp)).2
    obtain ⟨st', hloop, hinv', hcard'⟩ := ih hinv₁ (fun p hp => hmem p (by simp [hp]))
    exact ⟨st', by rw [resolveLoop, hstep]; exact hloop, hinv', le_trans hcard' hcard₁⟩

lemma ensure_union_ne_empty {a b : Region} (ha : a.Nonempty) :
    ensure_polygonR (a ∪ b) ≠ ∅ :=
  fun h => by
    rcases ha with ⟨x, hx⟩
    have hx' : x ∈ (∅ : Region) := h ▸ Finset.mem_union_left _ hx
    simp at hx'

/-- The candidate pairs for a three-cell collection where `A` meets `B`, `B`
meets `C`, and `A` is disjoint from `C`. -/
lemma conflictPairs_triple {A B C : Region} (h1 : (A ∩ B).Nonempty)
    (h2 : (B ∩ C).Nonempty) (hac : A ∩ C = ∅) :
    conflictPairs [A, B, C] none = [(0, 1), (1, 0), (1, 2), (2, 1)] := by
  have h1' : (B ∩ A).Nonempty := by rwa [Finset.inter_comm]
  have h2' : (C ∩ B).Nonempty := by rwa [Finset.inter_comm]
  have hac' : ¬ (A ∩ C).Nonempty := by simp [hac]
  have hca' : ¬ (C ∩ A).Nonempty := by rwa [Finset.inter_comm]
  simp [conflictPairs, List.range_succ, intersectsR, keptPair, h1, h1', h2, h2', hac', hca']

/-- The first candidate pair processed from the initial three-cell state
always merges, leaving at most two distinct representatives. -/
lemma conflictStep_triple_first {θ : ℚ} {A B C : Region} (h1 : (A ∩ B).Nonempty)
    (h2 : (B ∩ C).Nonempty)
    (hab : areaR (A ∩ B) ≥ θ * min (areaR A) (areaR B))
    (hbc : areaR (B ∩ C) ≥ θ * min (areaR B) (areaR C))
    {p : ℕ × ℕ} (hp : p ∈ [(0, 1), (1, 0), (1, 2), (2, 1)]) :
    ∃ st₁, conflictStep θ ⟨[A, B, C], [0, 1, 2]⟩ p = Except.ok st₁ ∧ StateInv 3 st₁ ∧
      st₁.resolved.toFinset.card ≤ 2 := by
  have hA : A.Nonempty := h1.mono Finset.inter_subset_left
  have hB : B.Nonempty := h1.mono Finset.inter_subset_right
  have hC : C.Nonempty := h2.mono Finset.inter_subset_right
  have hba : areaR (B ∩ A) ≥ θ * min (areaR B) (areaR A) := by
    rwa [Finset.inter_comm, min_comm]
  have hcb : areaR (C ∩ B) ≥ θ * min (areaR C) (areaR B) := by
    rwa [Finset.inter_comm, min_comm]
  simp only [List.mem_cons, List.not_mem_nil, or_false] at hp
  rcases hp with rfl | rfl | rfl | rfl
  · refine ⟨⟨[A, B, C, ensure_polygonR (A ∪ B)], [3, 3, 2]⟩, ?_, ?_, ?_⟩
    · simp [conflictStep, hab, ensure_union_ne_empty hA]
    · refine ⟨rfl, ?_, ?_⟩
      · intro r hr
        simp only [List.mem_cons, List.not_mem_nil, or_false] at hr
        rcases hr with rfl | rfl | rfl <;> simp
      · intro c hc
        simp only [List.mem_cons, List.not_mem_nil, or_false] at hc
        rcases hc with rfl | rfl | rfl | rfl
        · exact hA
        · exact hB
        · exact hC
        · exact Finset.nonempty_iff_ne_empty.mpr (ensure_union_ne_empty hA)
    · change ([3, 3, 2] : List ℕ).toFinset.card ≤ 2
      decide
  · refine ⟨⟨[A, B, C, ensure_polygonR (B ∪ A)], [3, 3, 2]⟩, ?_, ?_, ?_⟩
    · simp [conflictStep, hba, ensure_union_ne_empty hB]
    · refine ⟨rfl, ?_, ?_⟩
      · intro r hr
        simp only [List.mem_cons, List.not_mem_nil, or_false] at hr
        rcases hr with rfl | rfl | rfl <;> simp
      · intro c hc
        simp only [List.mem_cons, List.not_mem_nil, or_false] at hc
        rcases hc with rfl | rfl | rfl | rfl
        · exact hA
        · exact hB
        · exact hC
        · exact Finset.nonempty_iff_ne_empty.mpr (ensure_union_ne_empty hB)
    · change ([3, 3, 2] : List ℕ).toFinset.card ≤ 2
      decide
  · refine ⟨⟨[A, B, C, ensure_polygonR (B ∪ C)], [0, 3, 3]⟩, ?_, ?_, ?_⟩
    · simp [conflictStep, hbc, ensure_union_ne_empty hB]
    · refine ⟨rfl, ?_, ?_⟩
      · intro r hr
        simp only [List.mem_cons, List.not_mem_nil, or_false] at hr
        rcases hr with rfl | rfl | rfl <;> simp
      · intro c hc
        simp only [List.mem_cons, List.not_mem_nil, or_false] at hc
        rcases hc with rfl | rfl | rfl | rfl
        · exact hA
        · exact hB
        · exact hC
        · exact Finset.nonempty_iff_ne_empty.mpr (ensure_union_ne_empty hB)
    · change ([0, 3, 3] : List ℕ).toFinset.card ≤ 2
      decide
  · refine ⟨⟨[A, B, C, ensure_polygonR (C ∪ B)], [0, 3, 3]⟩, ?_, ?_, ?_⟩
    · simp [conflictStep, hcb, ensure_union_ne_empty hC]
    · refine ⟨rfl, ?_, ?_⟩
      · intro r hr
        simp only [List.mem_cons, List.not_mem_nil, or_false] at hr
        rcases hr with rfl | rfl | rfl <;> simp
      · intro c hc
        simp only [List.mem_cons, List.not_mem_nil, or_false] at hc
        rcases hc with rfl | rfl | rfl | rfl
        · exact hA
        · exact hB
        · exact hC
        · exact Finset.nonempty_iff_ne_empty.mpr (ensure_union_ne_empty hC)
    · change ([0, 3, 3] : List ℕ).toFinset.card ≤ 2
      decide

/-- C2 (amended).  For three cells where `A` overlaps `B` and `B` overlaps
`C` by at least `threshold` times the smaller area, and `A` and `C` are
disjoint, `solve_conflicts` always succeeds and merges at least one pair, so
the final collection has at most two cells (fewer than the original three) —
for every processing order of the candidate pairs.  It need not collapse to
one cell: after a merge the threshold is re-checked against the merged cell's
larger area, so the outcome depends on the processing order. -/
theorem solve_conflicts_chain_at_most_two (A B C : Region) (θ : ℚ)
    (h1 : (A ∩ B).Nonempty) (h2 : (B ∩ C).Nonempty) (hac : A ∩ C = ∅)
    (hab : areaR (A ∩ B) ≥ θ * min (areaR A) (areaR B))
    (hbc : areaR (B ∩ C) ≥ θ * min (areaR B) (areaR C))
    (pairs : List (ℕ × ℕ)) (hperm : pairs.Perm (conflictPairs [A, B, C] none)) :
    ∃ out, solveWithPairs [A, B, C] θ pairs = Except.ok out ∧
      1 ≤ out.unique_cells.length ∧ out.unique_cells.length ≤ 2 := by
  have hmem4 : ∀ p ∈ pairs, p ∈ [(0, 1), (1, 0), (1, 2), (2, 1)] := by
    intro p hp
    rw [← conflictPairs_triple h1 h2 hac]
    exact hperm.mem_iff.mp hp
  have hlen4 : pairs.length = 4 := by
    rw [hperm.length_eq, conflictPairs_triple h1 h2 hac]
    rfl
  obtain ⟨p, rest, rfl⟩ : ∃ p rest, pairs = p :: rest := by
    cases pairs with
    | nil => simp at hlen4
    | cons p rest => exact ⟨p, rest, rfl⟩
  obtain ⟨st₁, hstep, hinv₁, hcard₁⟩ :=
    conflictStep_triple_first (θ := θ) h1 h2 hab hbc (hmem4 p (by simp))
  have hbound : ∀ q ∈ rest, q.1 < 3 ∧ q.2 < 3 := by
    intro q hq
    have := hmem4 q (by simp [hq])
    simp only [List.mem_cons, List.not_mem_nil, or_false] at this
    rcases this with rfl | rfl | rfl | rfl <;> exact ⟨by norm_num, by norm_num⟩
  obtain ⟨st', hloop, hinv', hcard'⟩ :=
    resolveLoop_ok_of_inv (θ := θ) hinv₁ hbound
  have hloopall : resolveLoop θ (p :: rest) ⟨[A, B, C], [0, 1, 2]⟩ = Except.ok st' := by
    rw [resolveLoop, hstep]
    exact hloop
  have hsolve : solveWithPairs [A, B, C] θ (p :: rest) = Except.ok
      ⟨(uniqueSorted st'.resolved).map (fun i => st'.cells.getD i ∅),
       (uniqueSorted st'.resolved).map
         (fun i => if i < ([A, B, C] : List Region).length then (i : ℤ) else -1)⟩ := by
    unfold solveWithPairs
    rw [if_neg (by simp)]
    have hrange : (⟨[A, B, C], List.range ([A, B, C] : List Region).length⟩ : ResolveState)
        = ⟨[A, B, C], [0, 1, 2]⟩ := rfl
    rw [hrange, hloopall]
  refine ⟨_, hsolve, ?_, ?_⟩
  · have hne : st'.resolved ≠ [] := by
      intro hnil
      have := hinv'.1
      rw [hnil] at this
      simp at this
    obtain ⟨x, hx⟩ := List.exists_mem_of_ne_nil _ hne
    have hpos : 0 < st'.resolved.toFinset.card :=
      Finset.card_pos.mpr ⟨x, List.mem_toFinset.mpr hx⟩
    simpa [uniqueSorted_length] using hpos
  · have : st'.resolved.toFinset.card ≤ 2 := le_trans hcard' hcard₁
    simpa [uniqueSorted_length] using this

/-- Chain counterexample, cell `A`: `{0} ∪ {10..19}` (area 11). -/
def cexA : Region := insert 0 (Finset.Ico 10 20)

/-- Chain counterexample, cell `B`: `{0, 1}` (area 2). -/
def cexB : Region := Finset.range 2

/-- Chain counterexample, cell `C`: `{1, 20}` (area 2). -/
def cexC : Region := {1, 20}

/-- A processing order of the candidate pairs that starts with the `B`-`C`
conflict. -/
def cexOrder : List (ℕ × ℕ) := [(1, 2), (2, 1), (0, 1), (1, 0)]

/-- C2 counterexample.  The three cells `cexA`, `cexB`, `cexC` satisfy the
claim's hypotheses with `threshold = 0.5` (`A`-`B` and `B`-`C` overlap at
least half of the smaller cell, `A`-`C` disjoint, no patch tags), yet under
the processing order that merges `B` with `C` first, `solve_conflicts` keeps
two cells: `A` no longer overlaps half of the smaller of `A` and the merged
`B ∪ C`, so no single transitive merge happens and the outcome differs from
the lexicographic order (which does produce one cell). -/
theorem solve_conflicts_chain_order_counterexample :
    ((cexA ∩ cexB).Nonempty ∧ (cexB ∩ cexC).Nonempty ∧ cexA ∩ cexC = ∅ ∧
     areaR (cexA ∩ cexB) ≥ (1/2) * min (areaR cexA) (areaR cexB) ∧
     areaR (cexB ∩ cexC) ≥ (1/2) * min (areaR cexB) (areaR cexC)) ∧
    cexOrder.Perm (conflictPairs [cexA, cexB, cexC] none) ∧
    (solveWithPairs [cexA, cexB, cexC] (1/2) cexOrder
        = Except.ok ⟨[cexA, {0, 1, 20}], [0, -1]⟩ ∧
      ([cexA, ({0, 1, 20} : Region)] : List Region).length ≠ 1) := by
  refine ⟨by with_unfolding_all decide, ?_, by with_unfolding_all decide, by decide⟩
  have h : conflictPairs [cexA, cexB, cexC] none
      = [(0, 1), (1, 0)] ++ [(1, 2), (2, 1)] := by with_unfolding_all decide
  rw [h]
  show ([(1, 2), (2, 1)] ++ [(0, 1), (1, 0)] : List (ℕ × ℕ)).Perm _
  exact List.perm_append_comm

/-- C2 witness: the amended theorem applied to the concrete chain
`cexA`, `cexB`, `cexC` with the code's own (lexicographic) candidate order. -/
theorem solve_conflicts_chain_witness :
    ∃ out, solveWithPairs [cexA, cexB, cexC] (1/2) (conflictPairs [cexA, cexB, cexC] none)
        = Except.ok out ∧ 1 ≤ out.unique_cells.length ∧ out.unique_cells.length ≤ 2 :=
  solve_conflicts_chain_at_most_two cexA cexB cexC (1/2)
    (by with_unfolding_all decide) (by with_unfolding_all decide)
    (by with_unfolding_all decide) (by with_unfolding_all decide)
    (by with_unfolding_all decide) _ (List.Perm.refl _)

/-- C3.  `solve_conflicts` on an empty cell collection always fails
(`assert n_cells > 0`, message "No cells was segmented, cannot continue") and
never returns a result, for every threshold and patch-index argument. -/
theorem solve_conflicts_empty_error (θ : ℚ) (pt : Option (List ℕ)) :
    solve_conflicts [] θ pt
      = Except.error "No cells was segmented, cannot continue" := rfl

/-- C6.  Inside `solve_conflicts`, whenever a candidate pair meets the merge
condition (intersection area at least `threshold` times the smaller area) but
the canonicalized union of the two resolved cells is empty, the loop body
fails with the assertion "Merged cell is empty" (`shapes.py` line 53), and
the error aborts the remaining loop instead of dropping the merged cell or
continuing. -/
theorem merge_empty_assert_fails_loudly (θ : ℚ) (st : ResolveState) (pr : ℕ × ℕ)
    (rest : List (ℕ × ℕ))
    (hcond : areaR (st.cells.getD (st.resolved.getD pr.1 0) ∅ ∩
        st.cells.getD (st.resolved.getD pr.2 0) ∅)
      ≥ θ * min (areaR (st.cells.getD (st.resolved.getD pr.1 0) ∅))
          (areaR (st.cells.getD (st.resolved.getD pr.2 0) ∅)))
    (hempty : ensure_polygonR (st.cells.getD (st.resolved.getD pr.1 0) ∅ ∪
        st.cells.getD (st.resolved.getD pr.2 0) ∅) = ∅) :
    conflictStep θ st pr = Except.error "Merged cell is empty" ∧
    resolveLoop θ (pr :: rest) st = Except.error "Merged cell is empty" := by
  have hstep : conflictStep θ st pr = Except.error "Merged cell is empty" := by
    unfold conflictStep
    dsimp only
    rw [if_pos hcond, if_pos hempty]
  exact ⟨hstep, by rw [resolveLoop, hstep]⟩

/-- C6 witness: two degenerate empty cells meet the merge condition
(`0 ≥ 0.5 * 0`) with an empty canonicalized union, and the loop aborts. -/
theorem merge_empty_assert_witness :
    conflictStep (1/2) ⟨[∅, ∅], [0, 1]⟩ (0, 1) = Except.error "Merged cell is empty" ∧
    resolveLoop (1/2) [(0, 1)] ⟨[∅, ∅], [0, 1]⟩ = Except.error "Merged cell is empty" :=
  merge_empty_assert_fails_loudly (1/2) ⟨[∅, ∅], [0, 1]⟩ (0, 1) []
    (by with_unfolding_all decide) (by with_unfolding_all decide)

/-!
### Polygon canonicalization (`_ensure_polygon`, `shapes.py` lines 82-117)

Geometries are modelled structurally: a polygon is an exterior ring plus a
list of interior rings (holes); coordinates are integer pairs.  shapely's
`make_valid` returns already-valid geometries unchanged, so it is modelled as
the identity and the theorems are stated for valid inputs (`IsValidGeom`).
-/

/-- A linear ring: a closed coordinate sequence (first point repeated last). -/
abbrev LinearRing := List (ℤ × ℤ)

/-- A shapely `Polygon`: one exterior ring and a list of interior rings. -/
structure PolyG where
  exterior : LinearRing
  interiors : List LinearRing
  deriving DecidableEq

/-- A member of a shapely `GeometryCollection` as inspected by
`_ensure_polygon`: a `Polygon`, a `MultiPolygon`, or anything else. -/
inductive GeomMember where
  | poly (p : PolyG)
  | multi (ps : List PolyG)
  | other
  deriving DecidableEq

/-- The geometry types handled by `_ensure_polygon`. -/
inductive Geometry where
  | poly (p : PolyG)
  | multi (ps : List PolyG)
  | collection (gs : List GeomMember)
  | other
  deriving DecidableEq

/-- Twice the signed area of a ring (shoelace formula). -/
def shoelace2 : LinearRing → ℤ
  | [] => 0
  | p :: ps =>
    ((p :: ps).zip (ps ++ [p])).foldl
      (fun s q => s + (q.1.1 * q.2.2 - q.2.1 * q.1.2)) 0

/-- shapely `.area` of a polygon: exterior area minus the hole areas. -/
def polyArea (p : PolyG) : ℚ :=
  (|shoelace2 p.exterior| : ℚ) / 2
    - ((p.interiors.map fun r => (|shoelace2 r| : ℚ) / 2).sum)

/-- Python `max(geoms, key=lambda polygon: polygon.area)`: the first element
of maximal area (later elements replace the current best only when strictly
larger).  Python `max` raises on an empty iterable; `make_valid` never
produces an empty multi-polygon, and the model returns the empty polygon
there. -/
def maxByArea : List PolyG → PolyG
  | [] => ⟨[], []⟩
  | p :: ps => ps.foldl (fun best q => if polyArea best < polyArea q then q else best) p

/-- The empty `Polygon()`. -/
def emptyPolyG : PolyG := ⟨[], []⟩

/-- shapely's `make_valid` (`shapes.py` line 91), modelled as the identity:
`make_valid` returns already-valid geometries unchanged, and every theorem
about `ensure_polygon` is stated for valid inputs only. -/
def make_valid (g : Geometry) : Geometry := g

/-- `_ensure_polygon` (`shapes.py` lines 82-117): repair with `make_valid`,
then (a) for a `Polygon`, drop the interior rings if any; (b) for a
`MultiPolygon`, return the largest-area member; (c) for a
`GeometryCollection`, return the largest-area `Polygon` member, else flatten
the `MultiPolygon` members and return their largest-area polygon, else warn
and return the empty polygon; (d) warn and return the empty polygon for any
other type. -/
def ensure_polygon (cell : Geometry) : PolyG :=
  match make_valid cell with
  | Geometry.poly p => if p.interiors ≠ [] then ⟨p.exterior, []⟩ else p
  | Geometry.multi ps => maxByArea ps
  | Geometry.collection gs =>
    let polys := gs.filterMap fun m =>
      match m with | GeomMember.poly p => some p | _ => none
    if polys ≠ [] then maxByArea polys
    else
      let flat := (gs.filterMap fun m =>
        match m with | GeomMember.multi qs => some qs | _ => none).flatMap id
      if flat ≠ [] then maxByArea flat
      else emptyPolyG
  | Geometry.other => emptyPolyG

/-- Structural validity of a ring: at least 4 coordinates and closed. -/
def ClosedRing (r : LinearRing) : Prop := 4 ≤ r.length ∧ r.head? = r.getLast?

instance (r : LinearRing) : Decidable (ClosedRing r) := by
  unfold ClosedRing; infer_instance

/-- Structural validity of a polygon: all rings closed. -/
def IsValidPoly (p : PolyG) : Prop :=
  ClosedRing p.exterior ∧ ∀ r ∈ p.interiors, ClosedRing r

instance (p : PolyG) : Decidable (IsValidPoly p) := by
  unfold IsValidPoly; infer_instance

/-- Structural validity of a collection member. -/
def IsValidMember : GeomMember → Prop
  | GeomMember.poly p => IsValidPoly p
  | GeomMember.multi ps => ps ≠ [] ∧ ∀ p ∈ ps, IsValidPoly p
  | GeomMember.other => True

instance : (m : GeomMember) → Decidable (IsValidMember m)
  | GeomMember.poly p => inferInstanceAs (Decidable (IsValidPoly p))
  | GeomMember.multi _ => inferInstanceAs (Decidable (_ ∧ _))
  | GeomMember.other => inferInstanceAs (Decidable True)

/-- Structural validity of a geometry (the domain on which shapely's
`make_valid` is the identity). -/
def IsValidGeom : Geometry → Prop
  | Geometry.poly p => IsValidPoly p
  | Geometry.multi ps => ps ≠ [] ∧ ∀ p ∈ ps, IsValidPoly p
  | Geometry.collection gs => ∀ m ∈ gs, IsValidMember m
  | Geometry.other => True

instance : (g : Geometry) → Decidable (IsValidGeom g)
  | Geometry.poly p => inferInstanceAs (Decidable (IsValidPoly p))
  | Geometry.multi _ => inferInstanceAs (Decidable (_ ∧ _))
  | Geometry.collection gs => inferInstanceAs (Decidable (∀ m ∈ gs, IsValidMember m))
  | Geometry.other => inferInstanceAs (Decidable True)

lemma foldl_choice_mem (l : List PolyG) (a : PolyG) :
    l.foldl (fun best q => if polyArea best < polyArea q then q else best) a ∈ a :: l := by
  induction l generalizing a with
  | nil => simp
  | cons q qs ih =>
    have h := ih (if polyArea a < polyArea q then q else a)
    simp only [List.foldl]
    rcases List.mem_cons.mp h with h' | h'
    · rw [h']
      split
      · simp
      · simp
    · simp [h']

lemma ensure_polygon_poly_eq (p : PolyG) :
    ensure_polygon (Geometry.poly p) = ⟨p.exterior, []⟩ := by
  show (if p.interiors ≠ [] then (⟨p.exterior, []⟩ : PolyG) else p) = ⟨p.exterior, []⟩
  split
  · rfl
  · rename_i h
    rw [not_not] at h
    cases p with
    | mk e i => simp_all

/-- C4 (amended).  For every valid geometry, canonicalization returns a
single polygon (or the empty polygon): interior rings are dropped when the
repaired geometry is a single polygon, but when it is a multi-polygon the
largest-area member is returned *as-is* — it is one of the members,
unchanged, and may therefore retain interior rings. -/
theorem ensure_polygon_branch_invariant (g : Geometry) (hv : IsValidGeom g) :
    ((∃ p, make_valid g = Geometry.poly p) → (ensure_polygon g).interiors = []) ∧
    (∀ ps, make_valid g = Geometry.multi ps → ps ≠ [] →
      ensure_polygon g ∈ ps) := by
  cases g with
  | poly p =>
    constructor
    · intro h
      rw [ensure_polygon_poly_eq]
    · intro ps hps
      cases hps
  | multi ps =>
    constructor
    · rintro ⟨p, hp⟩
      cases hp
    · intro qs hqs hne
      obtain rfl : ps = qs := by cases hqs; rfl
      cases ps with
      | nil => exact absurd rfl hne
      | cons p rest => exact foldl_choice_mem rest p
  | collection gs =>
    constructor
    · rintro ⟨p, hp⟩
      cases hp
    · intro ps hps
      cases hps
  | other =>
    constructor
    · rintro ⟨p, hp⟩
      cases hp
    · intro ps hps
      cases hps

/-- A valid 10×10 square with a 1×1 interior hole (area 99). -/
def holedSquare : PolyG :=
  ⟨[(0, 0), (10, 0), (10, 10), (0, 10), (0, 0)],
   [[(2, 2), (3, 2), (3, 3), (2, 3), (2, 2)]]⟩

/-- C4 counterexample.  The valid `MultiPolygon` containing a holed square is
canonicalized to its (only, hence largest) member unchanged, which still has
an interior ring — not a single-ring polygon as the claim states. -/
theorem ensure_polygon_hole_counterexample :
    IsValidGeom (Geometry.multi [holedSquare]) ∧
    (ensure_polygon (Geometry.multi [holedSquare])).interiors ≠ [] := by
  with_unfolding_all decide

/-- C4 witness: the amended theorem applied to the holed-square
multi-polygon, whose canonicalization is a member of the multi-polygon. -/
theorem ensure_polygon_branch_witness :
    ensure_polygon (Geometry.multi [holedSquare]) ∈ [holedSquare] :=
  (ensure_polygon_branch_invariant (Geometry.multi [holedSquare]) (by decide)).2
    [holedSquare] rfl (by decide)

/-- C5 (amended).  Canonicalization is idempotent exactly on valid geometries
whose canonical form has no interior rings; in general the second application
drops the interior rings kept by the multi-polygon/collection branches:
`canonicalize (canonicalize x)` equals `canonicalize x` with its holes
removed, so the function is idempotent from the second application on. -/
theorem ensure_polygon_twice_drops_holes (g : Geometry) (hv : IsValidGeom g) :
    ensure_polygon (Geometry.poly (ensure_polygon g))
      = ⟨(ensure_polygon g).exterior, []⟩ ∧
    ((ensure_polygon g).interiors = [] →
      ensure_polygon (Geometry.poly (ensure_polygon g)) = ensure_polygon g) := by
  refine ⟨ensure_polygon_poly_eq _, fun hint => ?_⟩
  rw [ensure_polygon_poly_eq]
  calc (⟨(ensure_polygon g).exterior, []⟩ : PolyG)
      = ⟨(ensure_polygon g).exterior, (ensure_polygon g).interiors⟩ := by rw [hint]
    _ = ensure_polygon g := rfl

/-- C5 counterexample.  For the valid multi-polygon containing a holed
square, applying `_ensure_polygon` twice differs from applying it once: the
second application drops the interior ring the first one kept. -/
theorem ensure_polygon_idempotence_counterexample :
    IsValidGeom (Geometry.multi [holedSquare]) ∧
    ensure_polygon (Geometry.poly (ensure_polygon (Geometry.multi [holedSquare])))
      ≠ ensure_polygon (Geometry.multi [holedSquare]) := by
  with_unfolding_all decide

/-- C5 witness: the amended theorem applied to the holed-square
multi-polygon. -/
theorem ensure_polygon_twice_witness :
    ensure_polygon (Geometry.poly (ensure_polygon (Geometry.multi [holedSquare])))
      = ⟨(ensure_polygon (Geometry.multi [holedSquare])).exterior, []⟩ :=
  (ensure_polygon_twice_drops_holes (Geometry.multi [holedSquare]) (by decide)).1

/-! ### `geometrize` empty-mask behaviour (`shapes.py` lines 150-179) -/

/-- A label mask: a 2D array of cell ids, 0 = background. -/
abbrev Mask := List (List ℕ)

/-- `mask.max()` (0 for an empty mask). -/
def maskMax (mask : Mask) : ℕ := (mask.map fun row => row.foldl max 0).foldl max 0

/-- The two kinds of value `geometrize` returns: the bare Python list `[]`
of the empty-mask branch (`return []`, `shapes.py` line 164) or the
`GeoDataFrame` built by the normal branch. -/
inductive GeometrizeResult where
  | pyList (cells : List PolyG)
  | geoDataFrame (cells : List PolyG)
  deriving DecidableEq

/-- Discriminator: is the returned value a `GeoDataFrame`? -/
def isGeoDataFrame : GeometrizeResult → Bool
  | GeometrizeResult.pyList _ => false
  | GeometrizeResult.geoDataFrame _ => true

/-- `geometrize(mask, tolerance, smooth_radius_ratio)` (`shapes.py` lines
150-179).  The normal branch's per-label pipeline (OpenCV `findContours` on
`mask == cell_id`, then buffer smoothing and simplification) is external
library code, abstracted as the parameter `cellOf` applied to each label
`1..max`, after which empty cells are dropped (`cells[~cells.is_empty]`).
The `max_cells == 0` branch logs a warning and returns the bare list `[]`. -/
def geometrize (cellOf : ℕ → PolyG) (mask : Mask) : GeometrizeResult :=
  if maskMax mask = 0 then GeometrizeResult.pyList []
  else GeometrizeResult.geoDataFrame
    (((List.range (maskMax mask)).map fun k => cellOf (k + 1)).filter
      fun p => !p.exterior.isEmpty)

/-- C7 (code evaluated at the failing input).  On an all-zero mask,
`geometrize` warns and returns without raising — but the value is the bare
Python list `[]`, not an empty collection of the same kind as the non-empty
branch's `GeoDataFrame`, contradicting the function's own return annotation
and docstring ("GeoDataFrame of polygons"). -/
theorem geometrize_zero_mask_returns_list :
    geometrize (fun _ => emptyPolyG) [[0, 0], [0, 0]] = GeometrizeResult.pyList [] ∧
    isGeoDataFrame (geometrize (fun _ => emptyPolyG) [[0, 0], [0, 0]]) = false ∧
    ∀ cells : List PolyG, isGeoDataFrame (GeometrizeResult.geoDataFrame cells) = true := by
  exact ⟨rfl, rfl, fun _ => rfl⟩

/-! ### `expand_radius` (`shapes.py` lines 213-219) -/

/-- One cell geometry of a GeoDataFrame, as needed to model buffering: its
equivalent radius (`eqRadius` stands for `sqrt(area/π)`) and the accumulated
outward buffer distance applied to it so far. -/
structure CellGeom where
  eqRadius : ℚ
  bufferAcc : ℚ
  deriving DecidableEq

/-- A `geopandas.GeoDataFrame` of cells: its geometry column. -/
structure GeoDF where
  geometry : List CellGeom
  deriving DecidableEq

/-- `geo_df.buffer(d)`: every geometry buffered outward by the same scalar
distance `d`. -/
def gdfBuffer (df : GeoDF) (d : ℚ) : List CellGeom :=
  df.geometry.map fun c => { c with bufferAcc := c.bufferAcc + d }

/-- `np.mean(np.sqrt(geo_df.area / np.pi))`: the pooled mean equivalent
radius over the whole collection. -/
def meanEqRadius (df : GeoDF) : ℚ :=
  (df.geometry.map fun c => c.eqRadius).sum / df.geometry.length

/-- `expand_radius(geo_df, expand_radius_ratio)` (`shapes.py` lines
213-219): return the input unchanged for a falsy ratio (`None` or `0`),
else compute the single scalar distance `ratio * mean(sqrt(area/π))` and
buffer every polygon outward by it. -/
def expand_radius (df : GeoDF) (q : Option ℚ) : GeoDF :=
  match q with
  | none => df
  | some r => if r = 0 then df else ⟨gdfBuffer df (r * meanEqRadius df)⟩

/-- C8.  `expand_radius` is the identity for a falsy ratio (`None` or `0`);
for a positive ratio every polygon of the collection is buffered outward by
the same single scalar distance `ratio * mean(sqrt(area_i/π))`, the pooled
(whole-collection) mean equivalent radius — not a per-cell distance. -/
theorem expand_radius_pooled_scalar (df : GeoDF) :
    expand_radius df none = df ∧ expand_radius df (some 0) = df ∧
    ∀ r : ℚ, 0 < r →
      (expand_radius df (some r)).geometry
        = df.geometry.map fun c =>
            { c with bufferAcc := c.bufferAcc + r * meanEqRadius df } := by
  refine ⟨rfl, by simp [expand_radius], fun r hr => ?_⟩
  simp [expand_radius, hr.ne', gdfBuffer]

/-- C8 witness: a two-cell collection with equivalent radii 2 and 4 and
ratio 1 is buffered by the single pooled distance `1 * (2+4)/2 = 3`. -/
theorem expand_radius_pooled_witness :
    (expand_radius ⟨[⟨2, 0⟩, ⟨4, 0⟩]⟩ (some 1)).geometry = [⟨2, 3⟩, ⟨4, 3⟩] := by
  rw [(expand_radius_pooled_scalar ⟨[⟨2, 0⟩, ⟨4, 0⟩]⟩).2.2 1 (by norm_num)]
  with_unfolding_all decide

/-- A Python heap of `GeoDataFrame` objects, for stating the in-place
mutation of `expand_radius`: references are indices into the store. -/
abbrev GdfStore := List GeoDF

/-- The call `expand_radius(store[ref], ratio)` as seen by the caller:
`geo_df.geometry = geo_df.buffer(...)` reassigns the geometry column of the
SAME object (a store update at `ref`), and the same reference is returned
(`return geo_df`); for a falsy ratio nothing is written. -/
def expand_radius_ref (σ : GdfStore) (ref : ℕ) (q : Option ℚ) : GdfStore × ℕ :=
  if q.getD 0 = 0 then (σ, ref)
  else (σ.set ref (expand_radius (σ.getD ref ⟨[]⟩) q), ref)

/-- C10.  For a truthy ratio, `expand_radius` mutates the caller's
GeoDataFrame in place and returns the very same reference: afterwards the
store holds the buffered collection at that reference, so when the buffer
distance is non-zero and the collection is non-empty the caller's original
geometries are no longer reachable through it. -/
theorem expand_radius_ref_in_place (σ : GdfStore) (ref : ℕ) (r : ℚ)
    (hr : r ≠ 0) (href : ref < σ.length) :
    (expand_radius_ref σ ref (some r)).2 = ref ∧
    (expand_radius_ref σ ref (some r)).1.getD ref ⟨[]⟩
      = expand_radius (σ.getD ref ⟨[]⟩) (some r) ∧
    ((σ.getD ref ⟨[]⟩).geometry ≠ [] → r * meanEqRadius (σ.getD ref ⟨[]⟩) ≠ 0 →
      (expand_radius_ref σ ref (some r)).1.getD ref ⟨[]⟩ ≠ σ.getD ref ⟨[]⟩) := by
  have hif : expand_radius_ref σ ref (some r)
      = (σ.set ref (expand_radius (σ.getD ref ⟨[]⟩) (some r)), ref) := by
    unfold expand_radius_ref
    rw [if_neg (by simpa using hr)]
  have hget : (expand_radius_ref σ ref (some r)).1.getD ref ⟨[]⟩
      = expand_radius (σ.getD ref ⟨[]⟩) (some r) := by
    rw [hif]
    dsimp only
    rw [List.getD_eq_getElem _ _ (by simpa using href)]
    exact List.getElem_set_self _
  refine ⟨by rw [hif], hget, fun hne hd heq => ?_⟩
  rw [hget] at heq
  have hgeom : (expand_radius (σ.getD ref ⟨[]⟩) (some r)).geometry
      = (σ.getD ref ⟨[]⟩).geometry := congrArg GeoDF.geometry heq
  have hexp : (expand_radius (σ.getD ref ⟨[]⟩) (some r)).geometry
      = gdfBuffer (σ.getD ref ⟨[]⟩) (r * meanEqRadius (σ.getD ref ⟨[]⟩)) := by
    simp [expand_radius, hr]
  rw [hexp] at hgeom
  obtain ⟨c, cs, hcons⟩ := List.exists_cons_of_ne_nil hne
  simp only [gdfBuffer, hcons, List.map_cons] at hgeom
  have hc : ({ c with bufferAcc := c.bufferAcc + r * meanEqRadius (σ.getD ref ⟨[]⟩) }
      : CellGeom) = c := (List.cons.inj hgeom).1
  have hacc := congrArg CellGeom.bufferAcc hc
  simp only [add_right_eq_self] at hacc
  exact hd hacc

/-- C10 witness: a one-element store holding a single-cell collection with
equivalent radius 2 and ratio 1: the same reference is returned and the
stored collection is the buffered one, which differs from the original. -/
theorem expand_radius_ref_witness :
    (expand_radius_ref [⟨[⟨2, 0⟩]⟩] 0 (some 1)).2 = 0 ∧
    (expand_radius_ref [⟨[⟨2, 0⟩]⟩] 0 (some 1)).1.getD 0 ⟨[]⟩
      = expand_radius (([⟨[⟨2, 0⟩]⟩] : GdfStore).getD 0 ⟨[]⟩) (some 1) ∧
    (expand_radius_ref [⟨[⟨2, 0⟩]⟩] 0 (some 1)).1.getD 0 ⟨[]⟩
      ≠ ([⟨[⟨2, 0⟩]⟩] : GdfStore).getD 0 ⟨[]⟩ := by
  obtain ⟨h1, h2, h3⟩ := expand_radius_ref_in_place [⟨[⟨2, 0⟩]⟩] 0 1
    (by norm_num) (by norm_num)
  exact ⟨h1, h2, h3 (by decide) (by with_unfolding_all decide)⟩

/-! ### Baysor patch execution (`_baysor.py`) -/

/-- One transcript patch directory, as relevant to `BaysorPatch.__call__`
and to the tolerant-mode assertion of `baysor`: whether
`segmentation_counts.loom` already exists before the call (the `recover`
check, line 96), the exit code of the external baysor subprocess (line 121),
and whether the output artifact exists once the batch has run (the
existence check of lines 66-69). -/
structure BaysorPatchDir where
  loomBefore : Bool
  returncode : ℤ
  loomAfter : Bool
  deriving DecidableEq

/-- How one patch call ends when it does not raise. -/
inductive PatchOutcome where
  | skipped
  | completed
  | failedTolerated
  deriving DecidableEq

/-- `BaysorPatch.__call__` (`_baysor.py` lines 95-126): return immediately
when `recover` and the output artifact already exists; otherwise run the
subprocess; on a non-zero exit code log a warning and return when `force`,
else raise a `RuntimeError`. -/
def baysorPatchCall (force recover : Bool) (p : BaysorPatchDir) :
    Except String PatchOutcome :=
  if recover && p.loomBefore then Except.ok PatchOutcome.skipped
  else if p.returncode ≠ 0 then
    if force then Except.ok PatchOutcome.failedTolerated
    else Except.error "Baysor error on patch"
  else Except.ok PatchOutcome.completed

/-- `settings._run_with_backend([partial(baysor_patch, d) for d in dirs])`
(`_baysor.py` line 64), modelled as running each patch callable in turn; an
exception from any patch propagates. -/
def runPatches (force recover : Bool) :
    List BaysorPatchDir → Except String (List PatchOutcome)
  | [] => Except.ok []
  | p :: ps =>
    match baysorPatchCall force recover p with
    | Except.error e => Except.error e
    | Except.ok o =>
      match runPatches force recover ps with
      | Except.error e => Except.error e
      | Except.ok os => Except.ok (o :: os)

/-- The patch loop of `baysor` plus its tolerant-mode assertion
(`_baysor.py` lines 64-69): run every patch, then, when `force`, require at
least one patch directory to contain `segmentation_counts.loom`
("Baysor failed on all patches"); the steps after the assertion (`resolve`,
cache deletion) are outside the modelled scope. -/
def baysor_batch (force recover : Bool) (patches : List BaysorPatchDir) :
    Except String Unit :=
  match runPatches force recover patches with
  | Except.error e => Except.error e
  | Except.ok _ =>
    if force then
      if patches.any (fun p => p.loomAfter) then Except.ok ()
      else Except.error "Baysor failed on all patches"
    else Except.ok ()

lemma baysorPatchCall_force_ok (recover : Bool) (p : BaysorPatchDir) :
    ∃ o, baysorPatchCall true recover p = Except.ok o := by
  unfold baysorPatchCall
  split
  · exact ⟨_, rfl⟩
  · split
    · exact ⟨_, rfl⟩
    · exact ⟨_, rfl⟩

lemma runPatches_force_ok (recover : Bool) :
    ∀ patches : List BaysorPatchDir,
      ∃ l, runPatches true recover patches = Except.ok l := by
  intro patches
  induction patches with
  | nil => exact ⟨[], rfl⟩
  | cons p ps ih =>
    obtain ⟨o, ho⟩ := baysorPatchCall_force_ok recover p
    obtain ⟨l, hl⟩ := ih
    exact ⟨o :: l, by rw [runPatches, ho, hl]⟩

/-- C9.  In tolerant mode (`force=true`): a patch whose external process
exits non-zero only logs a warning and never aborts the batch (every patch
call succeeds, and a failing, non-skipped one returns the tolerated-failure
outcome); after all patches have run, the batch fails hard with
"Baysor failed on all patches" when no patch produced its
`segmentation_counts.loom` artifact, and completes successfully when at
least one did. -/
theorem baysor_force_semantics (recover : Bool) (patches : List BaysorPatchDir) :
    (∀ p : BaysorPatchDir, ∃ o, baysorPatchCall true recover p = Except.ok o) ∧
    (∀ p : BaysorPatchDir, p.returncode ≠ 0 → (recover && p.loomBefore) = false →
      baysorPatchCall true recover p = Except.ok PatchOutcome.failedTolerated) ∧
    ((∀ p ∈ patches, p.loomAfter = false) →
      baysor_batch true recover patches = Except.error "Baysor failed on all patches") ∧
    ((∃ p ∈ patches, p.loomAfter = true) →
      baysor_batch true recover patches = Except.ok ()) := by
  refine ⟨baysorPatchCall_force_ok recover, ?_, ?_, ?_⟩
  · intro p hrc hskip
    unfold baysorPatchCall
    rw [if_neg (by simp [hskip]), if_pos hrc]
    rfl
  · intro hall
    obtain ⟨l, hl⟩ := runPatches_force_ok recover patches
    unfold baysor_batch
    rw [hl]
    have hany : patches.any (fun p => p.loomAfter) = false := by
      rw [List.any_eq_false]
      intro p hp
      simp [hall p hp]
    simp [hany]
  · intro ⟨p, hp, hloom⟩
    obtain ⟨l, hl⟩ := runPatches_force_ok recover patches
    unfold baysor_batch
    rw [hl]
    have hany : patches.any (fun p => p.loomAfter) = true :=
      List.any_eq_true.mpr ⟨p, hp, by simp [hloom]⟩
    simp [hany]

/-- C9 witness: with `force=true` and a single patch that exits non-zero and
produces no artifact, the batch fails hard; and the same theorem applied to
a two-patch batch with one success shows the batch completing. -/
theorem baysor_force_witness :
    baysor_batch true false [⟨false, 1, false⟩]
      = Except.error "Baysor failed on all patches" ∧
    baysor_batch true false [⟨false, 1, false⟩, ⟨false, 0, true⟩]
      = Except.ok () ∧
    baysorPatchCall true false ⟨false, 1, false⟩
      = Except.ok PatchOutcome.failedTolerated :=
  ⟨(baysor_force_semantics false [⟨false, 1, false⟩]).2.2.1 (by decide),
   (baysor_force_semantics false [⟨false, 1, false⟩, ⟨false, 0, true⟩]).2.2.2
     ⟨⟨false, 0, true⟩, by decide, rfl⟩,
   (baysor_force_semantics false []).2.1 ⟨false, 1, false⟩ (by decide) rfl⟩

end Sopa
